import Mathlib

/-!
Verification of the kj-utils mergeable skew heap (src/include/kj/detail/skew_heap_impl.hpp)
and its backing object pool (ObjectPool, kj/detail/object_pool.hpp), via a shallow
embedding.

Keys are modelled as Int; the comparator is an arbitrary Boolean relation, matching
the C++ template parameter Comp. Pointers to nodes become an inductive binary tree
with a nil constructor standing for nullptr. Pool slots are identified by the order
in which their blocks were allocated.
-/

namespace KJ

/-! ## Definitions: skew heap -/

/-- Internal node type of SkewHeap: a key and two child links; nil models nullptr. -/
inductive Tree where
  | nil : Tree
  | node (key : Int) (left : Tree) (right : Tree) : Tree
deriving DecidableEq, Repr

/-- Number of nodes in a tree. -/
def Tree.size : Tree → Nat
  | .nil => 0
  | .node _ l r => l.size + r.size + 1

/-- Multiset of keys stored in a tree. -/
def Tree.keys : Tree → Multiset Int
  | .nil => 0
  | .node k l r => k ::ₘ (l.keys + r.keys)

/-- Embedding of SkewHeap::merge_nodes from skew_heap_impl.hpp:
if either tree is null return the other; if cmp(b.key, a.key) swap a and b;
then a.right = merge_nodes(a.right, b); finally swap a.left and a.right. -/
def merge_nodes (cmp : Int → Int → Bool) : Tree → Tree → Tree
  | .nil, b => b
  | a, .nil => a
  | .node ka la ra, .node kb lb rb =>
    if cmp kb ka then
      Tree.node kb (merge_nodes cmp rb (.node ka la ra)) lb
    else
      Tree.node ka (merge_nodes cmp ra (.node kb lb rb)) la
termination_by a b => a.size + b.size
decreasing_by
  · simp [Tree.size]; omega
  · simp [Tree.size]; omega

/-- Replace the right child of a tree, as the assignment a.right = ... does. -/
def Tree.withRight : Tree → Tree → Tree
  | .nil, _ => .nil
  | .node k l _, r2 => .node k l r2

/-- Swap the two children of a tree, as std::swap(a.left, a.right) does. -/
def Tree.skew : Tree → Tree
  | .nil => .nil
  | .node k l r => .node k r l

/-- Modelled from the spec, section 4.2, Core merge primitive: 1. absent tree gives
the other; 2. compare the two roots and swap the references so that the first tree
keeps the preferred root; 3. recursively merge the second tree into the right
subtree of the first; 4. unconditionally swap the children; 5. return the first. -/
def merge_nodes_spec (cmp : Int → Int → Bool) : Tree → Tree → Tree
  | .nil, b => b
  | a, .nil => a
  | .node ka la ra, .node kb lb rb =>
    if cmp kb ka then
      Tree.skew (Tree.withRight (.node kb lb rb)
        (merge_nodes_spec cmp rb (.node ka la ra)))
    else
      Tree.skew (Tree.withRight (.node ka la ra)
        (merge_nodes_spec cmp ra (.node kb lb rb)))
termination_by a b => a.size + b.size
decreasing_by
  · simp [Tree.size]; omega
  · simp [Tree.size]; omega

/-- State of a SkewHeap instance: root pointer, size counter, comparator. -/
structure SkewHeap where
  root : Tree
  sz : Nat
  cmp : Int → Int → Bool

/-- Embedding of the default constructor: empty heap with the given comparator. -/
def SkewHeap.init (cmp : Int → Int → Bool) : SkewHeap :=
  { root := .nil, sz := 0, cmp := cmp }

/-- Embedding of SkewHeap::empty, which tests the root pointer against nullptr. -/
def SkewHeap.empty (h : SkewHeap) : Bool :=
  h.root = Tree.nil

/-- Embedding of SkewHeap::size. -/
def SkewHeap.size (h : SkewHeap) : Nat := h.sz

/-- Embedding of SkewHeap::push: merge a fresh single node into the root, bump size. -/
def SkewHeap.push (h : SkewHeap) (v : Int) : SkewHeap :=
  { h with root := merge_nodes h.cmp h.root (.node v .nil .nil), sz := h.sz + 1 }

/-- Embedding of SkewHeap::emplace: the node is built from T(args...) and then
merged exactly as in push; with keys modelled as values the state change coincides. -/
def SkewHeap.emplace (h : SkewHeap) (v : Int) : SkewHeap :=
  { h with root := merge_nodes h.cmp h.root (.node v .nil .nil), sz := h.sz + 1 }

/-- Embedding of SkewHeap::pop on a non-empty heap: delete the root, merge its two
children, decrement size. The nil branch is unreachable under the precondition
(the C++ dereferences a null pointer there) and returns the state unchanged. -/
def SkewHeap.pop (h : SkewHeap) : SkewHeap :=
  match h.root with
  | .nil => h
  | .node _ l r => { h with root := merge_nodes h.cmp l r, sz := h.sz - 1 }

/-- Embedding of SkewHeap::clear: destroy every node, reset root and size. -/
def SkewHeap.clear (h : SkewHeap) : SkewHeap :=
  { h with root := .nil, sz := 0 }

/-- Embedding of SkewHeap::merge for two distinct objects (the branch after the
identity test this != other): merge the trees under the destination comparator,
add the sizes, and null out the source. Returns (destination, source). -/
def SkewHeap.mergeImpl (h other : SkewHeap) : SkewHeap × SkewHeap :=
  ({ h with root := merge_nodes h.cmp h.root other.root, sz := h.sz + other.sz },
   { other with root := .nil, sz := 0 })

/-- Embedding of SkewHeap::merge when the argument aliases the receiver:
the identity test this == other makes the call return immediately. -/
def SkewHeap.mergeSelf (h : SkewHeap) : SkewHeap := h

/-- Draining a tree: read the root key, pop, repeat until empty. This is the
observable sequence produced by the top/pop loop of the tests. -/
def drainTree (cmp : Int → Int → Bool) : Tree → List Int
  | .nil => []
  | .node k l r => k :: drainTree cmp (merge_nodes cmp l r)
termination_by t => t.size
decreasing_by
  have hs : ∀ a b : Tree, (merge_nodes cmp a b).size = a.size + b.size := by
    intro a b
    induction a, b using merge_nodes.induct cmp with
    | case1 b => cases b <;> simp [merge_nodes, Tree.size]
    | case2 a => cases a <;> simp [merge_nodes, Tree.size]
    | case3 ka la ra kb lb rb hc ih =>
        simp only [merge_nodes, if_pos hc, Tree.size, ih]; omega
    | case4 ka la ra kb lb rb hc ih =>
        simp only [merge_nodes, if_neg hc, Tree.size, ih]; omega
  simp [hs, Tree.size]

/-- Observable drain sequence of a heap. -/
def SkewHeap.drain (h : SkewHeap) : List Int := drainTree h.cmp h.root

/-- Heap-order check, translated from the invariant stated for the data model:
no key in either subtree is ranked before its parent key by the comparator. -/
def isHeap (cmp : Int → Int → Bool) : Tree → Bool
  | .nil => true
  | .node k l r =>
      decide (∀ x ∈ l.keys, cmp x k = false) &&
      decide (∀ x ∈ r.keys, cmp x k = false) &&
      isHeap cmp l && isHeap cmp r

/-- One mutating operation on a heap, as exposed by the public API. A mergeOp
carries the state of the source heap that is merged in. -/
inductive HOp where
  | push (v : Int)
  | emplace (v : Int)
  | popOp
  | mergeOp (g : SkewHeap)

/-- Apply one operation. pop is applied under its non-emptiness precondition:
on an empty heap (where the C++ has undefined behavior) the state is kept. -/
def applyOp (h : SkewHeap) : HOp → SkewHeap
  | .push v => h.push v
  | .emplace v => h.emplace v
  | .popOp => h.pop
  | .mergeOp g => (h.mergeImpl g).1

/-- Apply a sequence of operations from left to right. -/
def applyOps (h : SkewHeap) (ops : List HOp) : SkewHeap := ops.foldl applyOp h

/-- Heap states reachable through the public API, starting from the default
constructor; pop is only taken under its non-emptiness precondition, and both
results of a merge of two reachable heaps are reachable. -/
inductive Reachable : SkewHeap → Prop
  | init (cmp) : Reachable (SkewHeap.init cmp)
  | push (h v) : Reachable h → Reachable (h.push v)
  | emplace (h v) : Reachable h → Reachable (h.emplace v)
  | pop (h) : Reachable h → h.root ≠ .nil → Reachable h.pop
  | mergeDst (h g) : Reachable h → Reachable g → Reachable (h.mergeImpl g).1
  | mergeSrc (h g) : Reachable h → Reachable g → Reachable (h.mergeImpl g).2
  | clear (h) : Reachable h → Reachable h.clear

/-! ## Definitions: object pool -/

/-- State of an ObjectPool<T> instance (kj/detail/object_pool.hpp). Slots are
identified by the order in which their memory came into existence; blocks records
the capacity of each allocated block; objs maps each currently constructed slot to
the value placement-constructed in it. The C++ live_ counter is a size_t; its
wrap-around on decrement below zero is not modelled (claims about destroy are
stated under the live count precondition the source documents). -/
structure ObjectPool where
  blocks : List Nat
  free : List Nat
  next_block_cap : Nat
  total_slots : Nat
  live : Nat
  objs : List (Nat × Int)
deriving DecidableEq, Repr

/-- Embedding of the ObjectPool constructor with an initial block capacity. -/
def ObjectPool.init (initial_block_capacity : Nat) : ObjectPool :=
  { blocks := [], free := [], next_block_cap := initial_block_capacity,
    total_slots := 0, live := 0, objs := [] }

/-- Embedding of ObjectPool::grow_: while min_new_slots > 0, allocate a block of
count = max(next_block_cap_, min_new_slots) slots, push each slot onto the free
list, add count to total_slots_, subtract count from min_new_slots (clamping at
zero), and double next_block_cap_ while it is below 2^28. -/
def ObjectPool.grow : ObjectPool → Nat → ObjectPool
  | p, 0 => p
  | p, n + 1 =>
    let count := max p.next_block_cap (n + 1)
    let p2 : ObjectPool :=
      { blocks := p.blocks ++ [count]
        free := p.free ++ (List.range count).map (fun i => p.total_slots + i)
        next_block_cap :=
          if p.next_block_cap < 2 ^ 28 then p.next_block_cap * 2 else p.next_block_cap
        total_slots := p.total_slots + count
        live := p.live
        objs := p.objs }
    ObjectPool.grow p2 (if n + 1 > count then (n + 1) - count else 0)
termination_by _ n => n
decreasing_by
  have hc : n + 1 ≤ max p.next_block_cap (n + 1) := Nat.le_max_right _ _
  split <;> omega

/-- Embedding of ObjectPool::reserve: no-op when the free list already holds n
slots, otherwise grow by the deficit. -/
def ObjectPool.reserve (p : ObjectPool) (n : Nat) : ObjectPool :=
  if p.free.length ≥ n then p else p.grow (n - p.free.length)

/-- Embedding of ObjectPool::create: grow by one slot request if the free list is
empty, pop the back of the free list, placement-construct the value there,
increment live_, and return the slot handle. -/
def ObjectPool.create (p : ObjectPool) (v : Int) : ObjectPool × Nat :=
  let p1 := if p.free.isEmpty then p.grow 1 else p
  let slot := p1.free.getLastD 0
  ({ p1 with free := p1.free.dropLast, live := p1.live + 1,
             objs := (slot, v) :: p1.objs }, slot)

/-- Embedding of ObjectPool::destroy: no-op on a null handle; otherwise run the
destructor of the stored object, push the slot back onto the free list, and
decrement live_. -/
def ObjectPool.destroy (p : ObjectPool) (h : Option Nat) : ObjectPool :=
  match h with
  | none => p
  | some s =>
      { p with objs := p.objs.filter (fun q => q.1 != s),
               free := p.free ++ [s], live := p.live - 1 }

/-- Embedding of ObjectPool::release_all: return every block and clear the free
list; next_block_cap_, total_slots_ and live_ are left untouched by the source. -/
def ObjectPool.release_all (p : ObjectPool) : ObjectPool :=
  { p with blocks := [], free := [] }

/-- Embedding of ObjectPool::capacity_slots. -/
def ObjectPool.capacity_slots (p : ObjectPool) : Nat := p.total_slots

/-! ## Definitions: precondition checking -/

/-- How a precondition violation surfaces: a debug-build assertion, or plain
undefined behavior with no check in any build. -/
inductive Misuse where
  | assertFail
  | undef
deriving DecidableEq, Repr

/-- Embedding of SkewHeap::top together with its precondition: the source body is
return root_->key with no assertion, so the empty case is a null dereference. -/
def SkewHeap.topChecked (h : SkewHeap) : Except Misuse Int :=
  match h.root with
  | .nil => .error .undef
  | .node k _ _ => .ok k

/-- Embedding of SkewHeap::pop together with its precondition: the source reads
root_->left with no assertion, so the empty case is a null dereference. -/
def SkewHeap.popChecked (h : SkewHeap) : Except Misuse SkewHeap :=
  match h.root with
  | .nil => .error .undef
  | .node _ l r => .ok { h with root := merge_nodes h.cmp l r, sz := h.sz - 1 }

/-- Embedding of SkewHeap::release_all_to_pool for the pool-backed variant: a
debug build asserts root_ == nullptr before pool_.release_all(). -/
def releaseAllToPoolChecked (root : Tree) (pool : ObjectPool) :
    Except Misuse ObjectPool :=
  if root = Tree.nil then .ok pool.release_all else .error .assertFail

/-- Embedding of ObjectPool::release_all with its debug assertion live_ == 0. -/
def releaseAllChecked (p : ObjectPool) : Except Misuse ObjectPool :=
  if p.live = 0 then .ok p.release_all else .error .assertFail

/-! ## Definitions: two pool-backed heaps (cross-pool merge) -/

/-- Node of a pool-backed heap, tagged with the slot it occupies and which of the
two pools constructed it (false = pool of heap A, true = pool of heap B). -/
inductive PTree where
  | nil
  | node (slot : Nat) (fromB : Bool) (key : Int) (left right : PTree)
deriving DecidableEq, Repr

/-- Number of nodes of a PTree. -/
def PTree.size : PTree → Nat
  | .nil => 0
  | .node _ _ _ l r => l.size + r.size + 1

/-- SkewHeap::merge_nodes on tagged pool nodes; the algorithm reads only keys. -/
def merge_pnodes (cmp : Int → Int → Bool) : PTree → PTree → PTree
  | .nil, b => b
  | a, .nil => a
  | .node sa ta ka la ra, .node sb tb kb lb rb =>
    if cmp kb ka then
      PTree.node sb tb kb (merge_pnodes cmp rb (.node sa ta ka la ra)) lb
    else
      PTree.node sa ta ka (merge_pnodes cmp ra (.node sb tb kb lb rb)) la
termination_by a b => a.size + b.size
decreasing_by
  · simp [PTree.size]; omega
  · simp [PTree.size]; omega

/-- Two pool-backed SkewHeap instances A and B, each owning its own ObjectPool,
as in SkewHeap<T, Comp, true>. -/
structure PoolSys where
  rootA : PTree
  szA : Nat
  poolA : ObjectPool
  rootB : PTree
  szB : Nat
  poolB : ObjectPool
  cmp : Int → Int → Bool

/-- Both heaps empty, each with a fresh pool of the given initial capacity. -/
def PoolSys.start (cmp : Int → Int → Bool) (cap : Nat) : PoolSys :=
  { rootA := .nil, szA := 0, poolA := ObjectPool.init cap,
    rootB := .nil, szB := 0, poolB := ObjectPool.init cap, cmp := cmp }

/-- push on heap B: its own pool constructs the node (make_node uses pool_). -/
def PoolSys.pushB (s : PoolSys) (v : Int) : PoolSys :=
  let r := s.poolB.create v
  { s with poolB := r.1,
           rootB := merge_pnodes s.cmp s.rootB (.node r.2 true v .nil .nil),
           szB := s.szB + 1 }

/-- A.merge(B) per SkewHeap::merge: relink the trees under the comparator of A,
add the sizes, empty B; the two pools are not touched. -/
def PoolSys.mergeAB (s : PoolSys) : PoolSys :=
  { s with rootA := merge_pnodes s.cmp s.rootA s.rootB,
           szA := s.szA + s.szB,
           rootB := .nil, szB := 0 }

/-- A.pop() per SkewHeap::pop with UsePool = true: the root node is handed to
pool_.destroy of heap A, the pool of the heap running the pop, regardless
of which pool constructed the node. -/
def PoolSys.popA (s : PoolSys) : PoolSys :=
  match s.rootA with
  | .nil => s
  | .node slot _ _ l r =>
      { s with rootA := merge_pnodes s.cmp l r, szA := s.szA - 1,
               poolA := s.poolA.destroy (some slot) }

/-- Comparator used in concrete scenarios: the default std::less on keys. -/
def ltc : Int → Int → Bool := fun a b => decide (a < b)

/-- Reversed comparator (std::greater), yielding a max-heap. -/
def gtc : Int → Int → Bool := fun a b => decide (b < a)

/-- Concrete cross-pool scenario: both pools fresh with capacity hint 1; one
element pushed into B (constructed by the pool of B), then A.merge(B), then
A.pop() drains the migrated node. -/
def crossPoolScenario : PoolSys :=
  (((PoolSys.start ltc 1).pushB 1).mergeAB).popA

/-- A concrete source heap for merge scenarios, heap-ordered under ltc. -/
def demoHeapSrc : SkewHeap :=
  { root := .node 2 .nil (.node 6 .nil .nil), sz := 2, cmp := ltc }

/-- A concrete operation sequence exercising push, merge, pop and emplace. -/
def demoOps : List HOp :=
  [.push 5, .push 1, .mergeOp demoHeapSrc, .popOp, .emplace 9]

/-- One call into an ObjectPool: reserve, create, or destroy of a handle. -/
inductive POp where
  | reserveOp (n : Nat)
  | createOp (v : Int)
  | destroyOp (s : Nat)

/-- Apply one pool call. -/
def applyPOp (p : ObjectPool) : POp → ObjectPool
  | .reserveOp n => p.reserve n
  | .createOp v => (p.create v).1
  | .destroyOp s => p.destroy (some s)

/-- Apply a sequence of pool calls from left to right. -/
def applyPOps (p : ObjectPool) (ops : List POp) : ObjectPool :=
  ops.foldl applyPOp p

/-- A call sequence is valid when every destroy happens while the pool has at
least one live object (destroy of a constructed handle), which is the usage the
source documents; reserve and create have no precondition. -/
def validPOps : ObjectPool → List POp → Bool
  | _, [] => true
  | p, op :: rest =>
      (match op with
       | POp.destroyOp _ => p.live != 0
       | _ => true) && validPOps (applyPOp p op) rest

/-- A concrete pool call sequence: two creations, one destroy, one reserve. -/
def demoPOps : List POp :=
  [.createOp 5, .createOp 6, .destroyOp 1, .reserveOp 3]

end KJ

namespace KJ

/-! ## Theorems: merge primitive -/

theorem merge_nodes_nil_left (cmp : Int → Int → Bool) (b : Tree) :
    merge_nodes cmp .nil b = b := by
  cases b <;> simp [merge_nodes]

theorem merge_nodes_nil_right (cmp : Int → Int → Bool) (a : Tree) :
    merge_nodes cmp a .nil = a := by
  cases a <;> simp [merge_nodes]

theorem merge_nodes_node (cmp : Int → Int → Bool) (ka : Int) (la ra : Tree)
    (kb : Int) (lb rb : Tree) :
    merge_nodes cmp (.node ka la ra) (.node kb lb rb) =
      if cmp kb ka then
        Tree.node kb (merge_nodes cmp rb (.node ka la ra)) lb
      else
        Tree.node ka (merge_nodes cmp ra (.node kb lb rb)) la := by
  simp [merge_nodes]

theorem merge_nodes_size (cmp : Int → Int → Bool) (a b : Tree) :
    (merge_nodes cmp a b).size = a.size + b.size := by
  induction a, b using merge_nodes.induct cmp with
  | case1 b => simp [merge_nodes_nil_left, Tree.size]
  | case2 a => simp [merge_nodes_nil_right, Tree.size]
  | case3 ka la ra kb lb rb hc ih =>
      rw [merge_nodes_node, if_pos hc]
      simp [Tree.size, ih]; omega
  | case4 ka la ra kb lb rb hc ih =>
      rw [merge_nodes_node, if_neg hc]
      simp [Tree.size, ih]; omega

theorem merge_nodes_keys (cmp : Int → Int → Bool) (a b : Tree) :
    (merge_nodes cmp a b).keys = a.keys + b.keys := by
  induction a, b using merge_nodes.induct cmp with
  | case1 b => simp [merge_nodes_nil_left, Tree.keys]
  | case2 a => simp [merge_nodes_nil_right, Tree.keys]
  | case3 ka la ra kb lb rb hc ih =>
      rw [merge_nodes_node, if_pos hc]
      simp only [Tree.keys, ih]
      simp [Multiset.cons_swap, add_comm, add_left_comm, add_assoc]
  | case4 ka la ra kb lb rb hc ih =>
      rw [merge_nodes_node, if_neg hc]
      simp only [Tree.keys, ih]
      simp [Multiset.cons_swap, add_comm, add_left_comm, add_assoc]

theorem drainTree_nil (cmp : Int → Int → Bool) : drainTree cmp .nil = [] := by
  simp [drainTree]

theorem drainTree_node (cmp : Int → Int → Bool) (k : Int) (l r : Tree) :
    drainTree cmp (.node k l r) = k :: drainTree cmp (merge_nodes cmp l r) := by
  rw [drainTree]

/-- Drained elements are exactly the stored keys. -/
theorem drainTree_keys (cmp : Int → Int → Bool) (t : Tree) :
    (drainTree cmp t : Multiset Int) = t.keys := by
  induction t using drainTree.induct cmp with
  | case1 => simp [drainTree_nil, Tree.keys]
  | case2 k l r ih =>
      rw [drainTree_node]
      simp [Tree.keys, ih, merge_nodes_keys, ← Multiset.cons_coe]

/-! ## Theorems: heap order invariant -/

theorem isHeap_nil (cmp : Int → Int → Bool) : isHeap cmp .nil = true := by
  simp [isHeap]

theorem isHeap_node (cmp : Int → Int → Bool) (k : Int) (l r : Tree) :
    isHeap cmp (.node k l r) =
      (decide (∀ x ∈ l.keys, cmp x k = false) &&
       decide (∀ x ∈ r.keys, cmp x k = false) &&
       isHeap cmp l && isHeap cmp r) := by
  simp [isHeap]

theorem isHeap_node_iff (cmp : Int → Int → Bool) (k : Int) (l r : Tree) :
    isHeap cmp (.node k l r) = true ↔
      ((∀ x ∈ l.keys, cmp x k = false) ∧ (∀ x ∈ r.keys, cmp x k = false) ∧
       isHeap cmp l = true ∧ isHeap cmp r = true) := by
  rw [isHeap_node]
  simp [Bool.and_eq_true, and_assoc]

/-- The merge primitive preserves heap order, given that the comparator is
asymmetric and its negation is transitive (both hold for any strict weak order). -/
theorem isHeap_merge_nodes (cmp : Int → Int → Bool)
    (Hasym : ∀ x y, cmp x y = true → cmp y x = false)
    (Htrans : ∀ x y z, cmp y x = false → cmp z y = false → cmp z x = false)
    (a b : Tree) :
    isHeap cmp a = true → isHeap cmp b = true →
      isHeap cmp (merge_nodes cmp a b) = true := by
  induction a, b using merge_nodes.induct cmp with
  | case1 b => intro _ hb; rw [merge_nodes_nil_left]; exact hb
  | case2 a => intro ha _; rw [merge_nodes_nil_right]; exact ha
  | case3 ka la ra kb lb rb hc ih =>
      intro ha hb
      rw [merge_nodes_node, if_pos hc]
      rw [isHeap_node_iff] at ha hb ⊢
      obtain ⟨hal, har, haL, haR⟩ := ha
      obtain ⟨hbl, hbr, hbL, hbR⟩ := hb
      refine ⟨?_, hbl, ?_, hbL⟩
      · intro x hx
        rw [merge_nodes_keys] at hx
        simp [Tree.keys, Multiset.mem_cons, Multiset.mem_add] at hx
        have hka : cmp ka kb = false := Hasym kb ka hc
        rcases hx with hx | hx | hx | hx
        · subst hx; exact hka
        · exact hbr x hx
        · exact Htrans kb ka x hka (hal x hx)
        · exact Htrans kb ka x hka (har x hx)
      · exact ih hbR (isHeap_node_iff cmp ka la ra |>.mpr ⟨hal, har, haL, haR⟩)
  | case4 ka la ra kb lb rb hc ih =>
      intro ha hb
      rw [merge_nodes_node, if_neg hc]
      rw [isHeap_node_iff] at ha hb ⊢
      obtain ⟨hal, har, haL, haR⟩ := ha
      obtain ⟨hbl, hbr, hbL, hbR⟩ := hb
      have hkb : cmp kb ka = false := by
        cases hcc : cmp kb ka with
        | false => rfl
        | true => exact absurd hcc hc
      refine ⟨?_, hal, ?_, haL⟩
      · intro x hx
        rw [merge_nodes_keys] at hx
        simp [Tree.keys, Multiset.mem_cons, Multiset.mem_add] at hx
        rcases hx with hx | hx | hx | hx
        · subst hx; exact hkb
        · exact har x hx
        · exact Htrans ka kb x hkb (hbl x hx)
        · exact Htrans ka kb x hkb (hbr x hx)
      · exact ih haR (isHeap_node_iff cmp kb lb rb |>.mpr ⟨hbl, hbr, hbL, hbR⟩)

/-- Draining a heap-ordered tree produces a sequence in which no later element
is ranked before an earlier one by the comparator. -/
theorem drainTree_sorted (cmp : Int → Int → Bool)
    (Hasym : ∀ x y, cmp x y = true → cmp y x = false)
    (Htrans : ∀ x y z, cmp y x = false → cmp z y = false → cmp z x = false)
    (t : Tree) :
    isHeap cmp t = true →
      List.Chain' (fun x y => cmp y x = false) (drainTree cmp t) := by
  induction t using drainTree.induct cmp with
  | case1 => intro _; simp [drainTree_nil]
  | case2 k l r ih =>
      intro ht
      rw [isHeap_node_iff] at ht
      obtain ⟨hl, hr, hL, hR⟩ := ht
      have hm : isHeap cmp (merge_nodes cmp l r) = true :=
        isHeap_merge_nodes cmp Hasym Htrans l r hL hR
      rw [drainTree_node, List.chain'_cons']
      refine ⟨?_, ih hm⟩
      intro y hy
      cases hmm : merge_nodes cmp l r with
      | nil => rw [hmm, drainTree_nil] at hy; simp at hy
      | node k2 l2 r2 =>
          rw [hmm, drainTree_node] at hy
          simp at hy
          subst hy
          have hk2 : (k2 : Int) ∈ l.keys + r.keys := by
            rw [← merge_nodes_keys cmp l r, hmm]
            simp [Tree.keys]
          rw [Multiset.mem_add] at hk2
          rcases hk2 with hk2 | hk2
          · exact hl k2 hk2
          · exact hr k2 hk2

/-! ## Theorems: operation sequences -/

theorem applyOp_cmp (h : SkewHeap) (op : HOp) : (applyOp h op).cmp = h.cmp := by
  cases op with
  | push v => rfl
  | emplace v => rfl
  | popOp =>
      show (SkewHeap.pop h).cmp = h.cmp
      unfold SkewHeap.pop
      cases h.root <;> rfl
  | mergeOp g => rfl

theorem applyOps_cmp (ops : List HOp) (h : SkewHeap) :
    (applyOps h ops).cmp = h.cmp := by
  induction ops generalizing h with
  | nil => rfl
  | cons op rest ih =>
      show (applyOps (applyOp h op) rest).cmp = h.cmp
      rw [ih, applyOp_cmp]

theorem isHeap_singleton (cmp : Int → Int → Bool) (v : Int) :
    isHeap cmp (.node v .nil .nil) = true := by
  rw [isHeap_node_iff]
  simp [Tree.keys, isHeap_nil]

theorem isHeap_applyOp (cmp : Int → Int → Bool)
    (Hasym : ∀ x y, cmp x y = true → cmp y x = false)
    (Htrans : ∀ x y z, cmp y x = false → cmp z y = false → cmp z x = false)
    (h : SkewHeap) (op : HOp) (hcmp : h.cmp = cmp)
    (hh : isHeap cmp h.root = true)
    (hop : ∀ g, op = HOp.mergeOp g → isHeap cmp g.root = true) :
    isHeap cmp (applyOp h op).root = true := by
  cases op with
  | push v =>
      show isHeap cmp (h.push v).root = true
      unfold SkewHeap.push
      rw [hcmp]
      exact isHeap_merge_nodes cmp Hasym Htrans _ _ hh (isHeap_singleton cmp v)
  | emplace v =>
      show isHeap cmp (h.emplace v).root = true
      unfold SkewHeap.emplace
      rw [hcmp]
      exact isHeap_merge_nodes cmp Hasym Htrans _ _ hh (isHeap_singleton cmp v)
  | popOp =>
      show isHeap cmp (SkewHeap.pop h).root = true
      unfold SkewHeap.pop
      cases hr : h.root with
      | nil => simp only [hr]; exact isHeap_nil cmp
      | node k l r =>
          simp only [hr]
          rw [hr, isHeap_node_iff] at hh
          rw [hcmp]
          exact isHeap_merge_nodes cmp Hasym Htrans _ _ hh.2.2.1 hh.2.2.2
  | mergeOp g =>
      show isHeap cmp (h.mergeImpl g).1.root = true
      unfold SkewHeap.mergeImpl
      rw [hcmp]
      exact isHeap_merge_nodes cmp Hasym Htrans _ _ hh (hop g rfl)

theorem isHeap_applyOps (cmp : Int → Int → Bool)
    (Hasym : ∀ x y, cmp x y = true → cmp y x = false)
    (Htrans : ∀ x y z, cmp y x = false → cmp z y = false → cmp z x = false)
    (ops : List HOp) :
    ∀ h : SkewHeap, h.cmp = cmp → isHeap cmp h.root = true →
      (∀ g, HOp.mergeOp g ∈ ops → isHeap cmp g.root = true) →
      isHeap cmp (applyOps h ops).root = true := by
  induction ops with
  | nil => intro h _ hh _; exact hh
  | cons op rest ih =>
      intro h hcmp hh hops
      show isHeap cmp (applyOps (applyOp h op) rest).root = true
      refine ih (applyOp h op) (by rw [applyOp_cmp, hcmp]) ?_ ?_
      · exact isHeap_applyOp cmp Hasym Htrans h op hcmp hh
          (fun g hg => hops g (hg ▸ List.mem_cons_self op rest))
      · exact fun g hg => hops g (List.mem_cons_of_mem op hg)

/-! ## Theorems: spec refinement of the merge primitive -/

theorem merge_nodes_spec_nil_left (cmp : Int → Int → Bool) (b : Tree) :
    merge_nodes_spec cmp .nil b = b := by
  cases b <;> simp [merge_nodes_spec]

theorem merge_nodes_spec_nil_right (cmp : Int → Int → Bool) (a : Tree) :
    merge_nodes_spec cmp a .nil = a := by
  cases a <;> simp [merge_nodes_spec]

theorem merge_nodes_spec_node (cmp : Int → Int → Bool) (ka : Int) (la ra : Tree)
    (kb : Int) (lb rb : Tree) :
    merge_nodes_spec cmp (.node ka la ra) (.node kb lb rb) =
      if cmp kb ka then
        Tree.skew (Tree.withRight (.node kb lb rb)
          (merge_nodes_spec cmp rb (.node ka la ra)))
      else
        Tree.skew (Tree.withRight (.node ka la ra)
          (merge_nodes_spec cmp ra (.node kb lb rb))) := by
  simp [merge_nodes_spec]

/-- C2: merge_nodes implements exactly the meld described by the spec: base cases
return the other tree; otherwise the roots are compared and swapped so the
preferred root stays on top, the other tree is merged into the right subtree, and
the children are unconditionally swapped (skew step). -/
theorem merge_nodes_refines_spec (cmp : Int → Int → Bool) (a b : Tree) :
    merge_nodes cmp a b = merge_nodes_spec cmp a b := by
  induction a, b using merge_nodes.induct cmp with
  | case1 b => rw [merge_nodes_nil_left, merge_nodes_spec_nil_left]
  | case2 a => rw [merge_nodes_nil_right, merge_nodes_spec_nil_right]
  | case3 ka la ra kb lb rb hc ih =>
      rw [merge_nodes_node, merge_nodes_spec_node, if_pos hc, if_pos hc, ih]
      simp [Tree.withRight, Tree.skew]
  | case4 ka la ra kb lb rb hc ih =>
      rw [merge_nodes_node, merge_nodes_spec_node, if_neg hc, if_neg hc, ih]
      simp [Tree.withRight, Tree.skew]

/-! ## Theorems: merge transfer and self-merge -/

/-- C3: merging a distinct heap adds its size to the destination and empties the
source (root null, size zero, elements transferred rather than copied), while a
self-merge returns immediately and leaves the heap, and hence its drained
sequence, unchanged. -/
theorem skewHeap_merge_transfers (h other : SkewHeap) :
    (h.mergeImpl other).1.sz = h.sz + other.sz ∧
    (h.mergeImpl other).1.root.keys = h.root.keys + other.root.keys ∧
    (h.mergeImpl other).2.root = Tree.nil ∧
    (h.mergeImpl other).2.sz = 0 ∧
    h.mergeSelf = h ∧
    h.mergeSelf.drain = h.drain := by
  refine ⟨rfl, ?_, rfl, rfl, rfl, rfl⟩
  exact merge_nodes_keys h.cmp h.root other.root

/-! ## Theorems: comparator noninterference of merge -/

/-- C10: the destination state produced by merge depends only on the source tree
and size, not on the source comparator, and the merged heap keeps the destination
comparator, so subsequent draining is ordered by the destination comparator. -/
theorem merge_comparator_noninterference (h o1 o2 : SkewHeap)
    (hroot : o1.root = o2.root) (hsz : o1.sz = o2.sz) :
    (h.mergeImpl o1).1 = (h.mergeImpl o2).1 ∧
    (h.mergeImpl o1).1.cmp = h.cmp ∧
    (h.mergeImpl o1).1.drain =
      drainTree h.cmp (merge_nodes h.cmp h.root o1.root) := by
  refine ⟨?_, rfl, rfl⟩
  simp [SkewHeap.mergeImpl, hroot, hsz]

/-! ## Theorems: heap order over operation sequences -/

/-- C1: starting from an empty heap, after any sequence of push, emplace, merge
and pop operations (merged-in heaps being heap-ordered under the comparator),
draining by repeated top and pop yields exactly the stored elements, in an order
in which the comparator never ranks a later element before an earlier one; for a
comparator that is a strict weak order this is non-decreasing order, and for the
reversed comparator it is non-increasing order. -/
theorem skewHeap_drain_sorted (cmp : Int → Int → Bool)
    (Hasym : ∀ x y, cmp x y = true → cmp y x = false)
    (Htrans : ∀ x y z, cmp y x = false → cmp z y = false → cmp z x = false)
    (ops : List HOp)
    (hops : ∀ g, HOp.mergeOp g ∈ ops → isHeap cmp g.root = true) :
    List.Chain' (fun x y => cmp y x = false)
      ((applyOps (SkewHeap.init cmp) ops).drain) ∧
    ((applyOps (SkewHeap.init cmp) ops).drain : Multiset Int) =
      (applyOps (SkewHeap.init cmp) ops).root.keys := by
  have hcmp : (applyOps (SkewHeap.init cmp) ops).cmp = cmp :=
    applyOps_cmp ops (SkewHeap.init cmp)
  have hheap : isHeap cmp (applyOps (SkewHeap.init cmp) ops).root = true :=
    isHeap_applyOps cmp Hasym Htrans ops (SkewHeap.init cmp) rfl (isHeap_nil cmp) hops
  constructor
  · unfold SkewHeap.drain
    rw [hcmp]
    exact drainTree_sorted cmp Hasym Htrans _ hheap
  · unfold SkewHeap.drain
    rw [hcmp]
    exact drainTree_keys cmp _

/-- Instance of C1 on a concrete operation sequence under the default order. -/
theorem skewHeap_drain_sorted_witness :
    List.Chain' (fun x y => ltc y x = false)
      ((applyOps (SkewHeap.init ltc) demoOps).drain) ∧
    ((applyOps (SkewHeap.init ltc) demoOps).drain : Multiset Int) =
      (applyOps (SkewHeap.init ltc) demoOps).root.keys :=
  skewHeap_drain_sorted ltc
    (by intro x y hxy; simp [ltc] at hxy ⊢; omega)
    (by intro x y z h1 h2; simp [ltc] at h1 h2 ⊢; omega)
    demoOps
    (by
      intro g hg
      simp [demoOps] at hg
      subst hg
      decide)

/-! ## Theorems: emptiness and size accounting -/

theorem reachable_sz_eq_size (h : SkewHeap) (hr : Reachable h) :
    h.sz = h.root.size := by
  induction hr with
  | init cmp => rfl
  | push g v _ ih =>
      show g.sz + 1 = (merge_nodes g.cmp g.root (.node v .nil .nil)).size
      rw [merge_nodes_size]
      simp [Tree.size, ih]
  | emplace g v _ ih =>
      show g.sz + 1 = (merge_nodes g.cmp g.root (.node v .nil .nil)).size
      rw [merge_nodes_size]
      simp [Tree.size, ih]
  | pop g _ hne ih =>
      unfold SkewHeap.pop
      cases hgr : g.root with
      | nil => exact absurd hgr hne
      | node k l r =>
          simp only [hgr]
          rw [merge_nodes_size]
          rw [hgr] at ih
          simp [Tree.size] at ih
          simp [ih]
  | mergeDst g1 g2 _ _ ih1 ih2 =>
      show g1.sz + g2.sz = (merge_nodes g1.cmp g1.root g2.root).size
      rw [merge_nodes_size, ih1, ih2]
  | mergeSrc g1 g2 _ _ _ _ => rfl
  | clear g _ _ => rfl

/-- C8: on every reachable heap state, empty() is true exactly when size() is 0;
in particular the equivalence holds after construction, is preserved by push,
emplace, pop under its precondition, merge (for both heaps) and clear, and so
holds after draining to exhaustion. -/
theorem skewHeap_empty_iff_size_zero (h : SkewHeap) (hr : Reachable h) :
    h.empty = true ↔ h.size = 0 := by
  have hsz : h.sz = h.root.size := reachable_sz_eq_size h hr
  unfold SkewHeap.empty SkewHeap.size
  rw [hsz]
  cases h.root with
  | nil => simp [Tree.size]
  | node k l r => simp [Tree.size]

/-- Instance of C8 on the freshly constructed heap. -/
theorem skewHeap_empty_iff_size_zero_witness :
    (SkewHeap.init ltc).empty = true ↔ (SkewHeap.init ltc).size = 0 :=
  skewHeap_empty_iff_size_zero (SkewHeap.init ltc) (Reachable.init ltc)

/-! ## Theorems: object pool -/

theorem ObjectPool.grow_zero (p : ObjectPool) : p.grow 0 = p := by
  simp [ObjectPool.grow]

/-- grow_ with a positive request runs its loop exactly once, because the single
block it allocates has count = max(next_block_cap_, min_new_slots) >= min_new_slots. -/
theorem ObjectPool.grow_succ (p : ObjectPool) (n : Nat) :
    p.grow (n + 1) =
      { blocks := p.blocks ++ [max p.next_block_cap (n + 1)],
        free := p.free ++ (List.range (max p.next_block_cap (n + 1))).map
          (fun i => p.total_slots + i),
        next_block_cap :=
          if p.next_block_cap < 2 ^ 28 then p.next_block_cap * 2
          else p.next_block_cap,
        total_slots := p.total_slots + max p.next_block_cap (n + 1),
        live := p.live, objs := p.objs } := by
  have h1 : ¬ (n + 1 > max p.next_block_cap (n + 1)) := by
    have h2 := Nat.le_max_right p.next_block_cap (n + 1)
    omega
  rw [ObjectPool.grow]
  simp [h1, ObjectPool.grow_zero]

/-- C4: create pops the back slot of the free list (after a grow_(1) request when
the free list is empty, which allocates a block of max(next_block_cap_, 1) slots;
with a non-empty free list capacity is untouched), constructs the value in that
slot, increments the live count by one, and returns the handle of that slot. -/
theorem objectPool_create_spec (p : ObjectPool) (v : Int) :
    (p.create v).1.live = p.live + 1 ∧
    (p.create v).1.objs =
      ((p.create v).2, v) :: (if p.free.isEmpty then p.grow 1 else p).objs ∧
    (p.create v).2 = (if p.free.isEmpty then p.grow 1 else p).free.getLastD 0 ∧
    (p.create v).1.free = (if p.free.isEmpty then p.grow 1 else p).free.dropLast ∧
    (p.create v).1.total_slots =
      (if p.free.isEmpty then p.total_slots + max p.next_block_cap 1
       else p.total_slots) := by
  unfold ObjectPool.create
  cases hf : p.free.isEmpty with
  | false =>
      simp [hf]
  | true =>
      simp only [hf, if_true, ite_true]
      refine ⟨?_, ?_, ?_, ?_, ?_⟩
      · show (p.grow 1).live + 1 = p.live + 1
        rw [ObjectPool.grow_succ]
      · trivial
      · trivial
      · trivial
      · show (p.grow 1).total_slots = p.total_slots + max p.next_block_cap 1
        rw [ObjectPool.grow_succ]

end KJ

namespace KJ

/-- Instance of C10 at concrete heaps whose source comparators differ. -/
theorem merge_comparator_noninterference_witness :
    (SkewHeap.mergeImpl ⟨.node 5 .nil .nil, 1, ltc⟩ ⟨.node 2 .nil .nil, 1, ltc⟩).1 =
      (SkewHeap.mergeImpl ⟨.node 5 .nil .nil, 1, ltc⟩ ⟨.node 2 .nil .nil, 1, gtc⟩).1 ∧
    (SkewHeap.mergeImpl ⟨.node 5 .nil .nil, 1, ltc⟩ ⟨.node 2 .nil .nil, 1, ltc⟩).1.cmp = ltc ∧
    (SkewHeap.mergeImpl ⟨.node 5 .nil .nil, 1, ltc⟩ ⟨.node 2 .nil .nil, 1, ltc⟩).1.drain =
      drainTree ltc (merge_nodes ltc (.node 5 .nil .nil) (.node 2 .nil .nil)) :=
  merge_comparator_noninterference
    ⟨.node 5 .nil .nil, 1, ltc⟩ ⟨.node 2 .nil .nil, 1, ltc⟩ ⟨.node 2 .nil .nil, 1, gtc⟩
    rfl rfl

/-! ## Theorems: reserve -/

theorem reserve_eq_of_ge (p : ObjectPool) (n : Nat) (h : n ≤ p.free.length) :
    p.reserve n = p := by
  unfold ObjectPool.reserve
  rw [if_pos h]

theorem reserve_eq_of_lt (p : ObjectPool) (n : Nat) (h : p.free.length < n) :
    p.reserve n = p.grow (n - p.free.length) := by
  unfold ObjectPool.reserve
  rw [if_neg (by omega)]

theorem objectPool_reserve_free_ge (p : ObjectPool) (n : Nat) :
    n ≤ (p.reserve n).free.length := by
  by_cases hge : n ≤ p.free.length
  · rw [reserve_eq_of_ge p n hge]; exact hge
  · have hlt : p.free.length < n := by omega
    rw [reserve_eq_of_lt p n hlt]
    have hm : n - p.free.length = (n - p.free.length - 1) + 1 := by omega
    rw [hm, ObjectPool.grow_succ]
    simp only [List.length_append, List.length_map, List.length_range]
    have h2 := Nat.le_max_right p.next_block_cap (n - p.free.length - 1 + 1)
    omega

/-- C6 (amended): after reserve(n) at least n free slots exist; a reserve already
satisfied by the free list is a no-op, so repeating it cannot allocate twice; when
growth happens, the planned block capacity doubles (below the 2^28 ceiling) and
exactly one block is allocated, sized max(next_block_cap_, deficit) — never more
than one block, even when the deficit exceeds the next block capacity. -/
theorem objectPool_reserve_spec (p : ObjectPool) (n : Nat) :
    n ≤ (p.reserve n).free.length ∧
    (p.reserve n).reserve n = p.reserve n ∧
    (p.reserve n).blocks =
      (if n ≤ p.free.length then p.blocks
       else p.blocks ++ [max p.next_block_cap (n - p.free.length)]) ∧
    (p.reserve n).next_block_cap =
      (if n ≤ p.free.length then p.next_block_cap
       else if p.next_block_cap < 2 ^ 28 then p.next_block_cap * 2
            else p.next_block_cap) := by
  refine ⟨objectPool_reserve_free_ge p n,
    reserve_eq_of_ge _ n (objectPool_reserve_free_ge p n), ?_, ?_⟩
  · by_cases hge : n ≤ p.free.length
    · rw [reserve_eq_of_ge p n hge, if_pos hge]
    · have hlt : p.free.length < n := by omega
      have hm : n - p.free.length = (n - p.free.length - 1) + 1 := by omega
      rw [reserve_eq_of_lt p n hlt, if_neg hge, hm, ObjectPool.grow_succ, ← hm]
  · by_cases hge : n ≤ p.free.length
    · rw [reserve_eq_of_ge p n hge, if_pos hge]
    · have hlt : p.free.length < n := by omega
      have hm : n - p.free.length = (n - p.free.length - 1) + 1 := by omega
      rw [reserve_eq_of_lt p n hlt, if_neg hge, hm, ObjectPool.grow_succ]

/-- C6 counterexample: on a fresh pool with next block capacity 4, reserve(100)
has a deficit of 100 slots, far beyond the next block capacity, yet the call
allocates exactly one block (of 100 slots), not more than one. -/
theorem objectPool_reserve_single_block_cex :
    (ObjectPool.init 4).next_block_cap <
      100 - (ObjectPool.init 4).free.length ∧
    ((ObjectPool.init 4).reserve 100).blocks = [100] := by
  constructor
  · simp [ObjectPool.init]
  · have hlt : (ObjectPool.init 4).free.length < 100 := by
      simp [ObjectPool.init]
    rw [reserve_eq_of_lt _ 100 hlt]
    have hm : 100 - (ObjectPool.init 4).free.length = 99 + 1 := by
      simp [ObjectPool.init]
    rw [hm, ObjectPool.grow_succ]
    simp [ObjectPool.init]

/-! ## Theorems: slot conservation -/

theorem grow_conserves (p : ObjectPool) (m : Nat)
    (h : p.total_slots = p.free.length + p.live) :
    (p.grow m).total_slots = (p.grow m).free.length + (p.grow m).live := by
  cases m with
  | zero => rw [ObjectPool.grow_zero]; exact h
  | succ n =>
      rw [ObjectPool.grow_succ]
      simp only [List.length_append, List.length_map, List.length_range]
      omega

theorem grow_free_ne_nil (p : ObjectPool) (n : Nat) :
    (p.grow (n + 1)).free.length ≠ 0 := by
  rw [ObjectPool.grow_succ]
  simp only [List.length_append, List.length_map, List.length_range]
  have h2 := Nat.le_max_right p.next_block_cap (n + 1)
  omega

theorem create_conserves (p : ObjectPool) (v : Int)
    (h : p.total_slots = p.free.length + p.live) :
    (p.create v).1.total_slots =
      (p.create v).1.free.length + (p.create v).1.live := by
  unfold ObjectPool.create
  cases hf : p.free.isEmpty with
  | false =>
      simp only [Bool.false_eq_true, if_false, ite_false]
      have hne : p.free.length ≠ 0 := by
        cases hfree : p.free with
        | nil => rw [hfree] at hf; simp at hf
        | cons a l => simp [hfree]
      simp [List.length_dropLast]
      omega
  | true =>
      simp only [if_true, ite_true]
      have h1 : (p.grow 1).total_slots =
          (p.grow 1).free.length + (p.grow 1).live := grow_conserves p 1 h
      have h2 : (p.grow 1).free.length ≠ 0 := grow_free_ne_nil p 0
      simp [List.length_dropLast]
      omega

theorem destroy_conserves (p : ObjectPool) (s : Nat) (hl : p.live ≠ 0)
    (h : p.total_slots = p.free.length + p.live) :
    (p.destroy (some s)).total_slots =
      (p.destroy (some s)).free.length + (p.destroy (some s)).live := by
  unfold ObjectPool.destroy
  simp only [List.length_append, List.length_cons, List.length_nil]
  omega

theorem reserve_conserves (p : ObjectPool) (n : Nat)
    (h : p.total_slots = p.free.length + p.live) :
    (p.reserve n).total_slots = (p.reserve n).free.length + (p.reserve n).live := by
  by_cases hge : n ≤ p.free.length
  · rw [reserve_eq_of_ge p n hge]; exact h
  · rw [reserve_eq_of_lt p n (by omega)]
    exact grow_conserves p _ h

theorem applyPOps_conserves (ops : List POp) :
    ∀ p : ObjectPool, p.total_slots = p.free.length + p.live →
      validPOps p ops = true →
      (applyPOps p ops).total_slots =
        (applyPOps p ops).free.length + (applyPOps p ops).live := by
  induction ops with
  | nil => intro p h _; exact h
  | cons op rest ih =>
      intro p h hv
      show (applyPOps (applyPOp p op) rest).total_slots =
        (applyPOps (applyPOp p op) rest).free.length +
          (applyPOps (applyPOp p op) rest).live
      cases op with
      | reserveOp n =>
          simp only [validPOps, Bool.true_and] at hv
          exact ih _ (reserve_conserves p n h) hv
      | createOp v =>
          simp only [validPOps, Bool.true_and] at hv
          exact ih _ (create_conserves p v h) hv
      | destroyOp s =>
          simp only [validPOps, Bool.and_eq_true, bne_iff_ne, ne_eq] at hv
          exact ih _ (destroy_conserves p s hv.1 h) hv.2

/-- C9: starting from a fresh pool, after any valid sequence of reserve, create
and destroy calls (each destroy performed while an object is live), the total
capacity ever allocated equals the free slots currently on the free list plus the
live count; the induction over the sequence shows each operation preserves it. -/
theorem objectPool_slot_conservation (c : Nat) (ops : List POp)
    (hv : validPOps (ObjectPool.init c) ops = true) :
    (applyPOps (ObjectPool.init c) ops).capacity_slots =
      (applyPOps (ObjectPool.init c) ops).free.length +
        (applyPOps (ObjectPool.init c) ops).live := by
  show (applyPOps (ObjectPool.init c) ops).total_slots = _
  exact applyPOps_conserves ops (ObjectPool.init c) rfl hv

/-- Instance of C9 on a concrete call sequence. -/
theorem objectPool_slot_conservation_witness :
    (applyPOps (ObjectPool.init 2) demoPOps).capacity_slots =
      (applyPOps (ObjectPool.init 2) demoPOps).free.length +
        (applyPOps (ObjectPool.init 2) demoPOps).live :=
  objectPool_slot_conservation 2 demoPOps (by
    simp [demoPOps, validPOps, applyPOp, ObjectPool.init, ObjectPool.create,
      ObjectPool.grow, ObjectPool.reserve, ObjectPool.destroy, List.range_succ])

/-! ## Theorems: cross-pool merge destruction path -/

/-- C5 evaluation: in the concrete cross-pool scenario the node constructed by
the pool of heap B migrates to heap A by merge and is then destroyed by pop of A
through the pool of A: the slot lands on the free list of pool A, pool B gets
nothing back and still counts one live object, and releasing pool B storage
trips its debug assertion. The slot is therefore not returned to the pool that
constructed it, contrary to the documented ownership contract. -/
theorem crossPool_destroy_wrong_pool :
    crossPoolScenario.rootA = PTree.nil ∧
    crossPoolScenario.poolA.free = [0] ∧
    crossPoolScenario.poolB.free = [] ∧
    crossPoolScenario.poolB.live = 1 ∧
    releaseAllChecked crossPoolScenario.poolB = .error .assertFail := by
  simp [crossPoolScenario, PoolSys.start, PoolSys.pushB, PoolSys.mergeAB,
    PoolSys.popA, ObjectPool.init, ObjectPool.create, ObjectPool.grow,
    ObjectPool.destroy, merge_pnodes, ltc, releaseAllChecked,
    ObjectPool.release_all, List.range_succ]

/-! ## Theorems: precondition violations -/

/-- C7 (amended): releasing pool storage from a non-empty heap and releasing all
pool blocks while objects are live trip debug-build assertions; but top() and
pop() on an empty heap have no assertion in the source — they dereference the
null root, which is unchecked undefined behavior in every build. -/
theorem precondition_violation_checks :
    (∀ h : SkewHeap, h.root = Tree.nil →
      h.topChecked = .error .undef ∧ h.popChecked = .error .undef) ∧
    (∀ (root : Tree) (pool : ObjectPool), root ≠ Tree.nil →
      releaseAllToPoolChecked root pool = .error .assertFail) ∧
    (∀ p : ObjectPool, p.live ≠ 0 →
      releaseAllChecked p = .error .assertFail) := by
  refine ⟨?_, ?_, ?_⟩
  · intro h hr
    constructor
    · unfold SkewHeap.topChecked; rw [hr]
    · unfold SkewHeap.popChecked; rw [hr]
  · intro root pool hr
    unfold releaseAllToPoolChecked
    rw [if_neg hr]
  · intro p hl
    unfold releaseAllChecked
    rw [if_neg hl]

/-- Instances of the three checks at concrete states. -/
theorem precondition_violation_checks_witness :
    ((SkewHeap.init ltc).topChecked = .error .undef ∧
     (SkewHeap.init ltc).popChecked = .error .undef) ∧
    releaseAllToPoolChecked (Tree.node 1 .nil .nil) (ObjectPool.init 4) =
      .error .assertFail ∧
    releaseAllChecked ((ObjectPool.init 4).create 7).1 = .error .assertFail :=
  ⟨precondition_violation_checks.1 (SkewHeap.init ltc) rfl,
   precondition_violation_checks.2.1 (Tree.node 1 .nil .nil) (ObjectPool.init 4)
     (by simp),
   precondition_violation_checks.2.2 ((ObjectPool.init 4).create 7).1
     (by simp [ObjectPool.init, ObjectPool.create, ObjectPool.grow,
       List.range_succ])⟩

/-- C7 counterexample: top() and pop() on an empty heap do not trigger an
assertion: the embedding of the unchecked source yields the undefined-behavior
marker, not the assertion-failure marker, on a concrete empty heap. -/
theorem top_pop_no_assert_cex :
    (SkewHeap.init ltc).topChecked = .error .undef ∧
    (SkewHeap.init ltc).popChecked = .error .undef ∧
    Misuse.undef ≠ Misuse.assertFail := by
  refine ⟨rfl, rfl, by decide⟩

end KJ
